import Mathlib

set_option maxHeartbeats 1000000

/-!
Shallow embedding of the Metatron guild-tracker bot (`src/main.py`):
the verification client (`AQWUtils.check_aqw_guild`), the display
synchronizer (`DiscordUtils.create_list_embeds`, `DiscordUtils.update_list`)
and the periodic reconciliation sweep (`live_guild_check`), together with
theorems settling the frozen specification claims.

External effects (HTTP fetches, Discord message operations) are modelled by
explicit oracles passed as function arguments; the SQLite tables are
modelled as lists of rows; time is an explicit `now : Nat` parameter.
-/

namespace Metatron

/-! ### Python string helpers

`str.lower`, `str.upper` and `str.strip` as used by the source. -/

def pyLower (s : String) : String := ⟨s.data.map Char.toLower⟩

def pyUpper (s : String) : String := ⟨s.data.map Char.toUpper⟩

def pyStrip (s : String) : String :=
  ⟨((s.data.dropWhile Char.isWhitespace).reverse.dropWhile
      Char.isWhitespace).reverse⟩

/-! ### Verification client: `AQWUtils.check_aqw_guild`

The Python function can exit through several paths with different Python
values: `True`/`False`, the empty list (when `guild_element` is `[]`, since
`[] and x` evaluates to `[]`), or `None` (falling off the `for attempt`
loop when every attempt was rate-limited).  `PyRet` records which value is
returned; `truthy` is Python truthiness. -/

inductive PyRet where
  | pyBool (b : Bool)
  | pyNone
  | pyEmptyList
deriving DecidableEq, Repr

def PyRet.truthy : PyRet → Bool
  | .pyBool b => b
  | .pyNone => false
  | .pyEmptyList => false

def PyRet.isBool : PyRet → Bool
  | .pyBool _ => true
  | .pyNone => false
  | .pyEmptyList => false

/-- Outcome of one HTTP fetch of the character page (`requests.get` +
`raise_for_status` + lxml parse): `ok label` is a 2xx response whose parse
found the guild element with the given following-sibling text (`none` when
the xpath query returned no element), `httpError s` is a
`requests.exceptions.HTTPError` with status `s`, and `otherError` is any
other exception (timeout, connection error, parse failure). -/
inductive FetchResult where
  | ok (guildLabel : Option String)
  | httpError (status : Nat)
  | otherError
deriving DecidableEq, Repr

def MAX_RETRIES : Nat := 1

def RETRY_DELAY : Nat := 5

/-- The `for attempt in range(MAX_RETRIES)` loop of
`AQWUtils.check_aqw_guild`.  `fetch` is the network oracle indexed by the
number of requests already issued; the returned `Nat` counts the HTTP
requests performed.  A 429 `HTTPError` sleeps and continues to the next
attempt; any other `HTTPError` or exception returns `False`; a parsed page
returns `guild_element and guild_element[0].strip().lower() ==
aqw_guild_name.lower()` (the empty list when no element was found);
exhausting the loop falls off the function body, returning `None`. -/
def checkAttempts (fetch : Nat → FetchResult) (aqw_guild_name : String) :
    Nat → Nat → PyRet × Nat
  | 0, reqs => (.pyNone, reqs)
  | attemptsLeft + 1, reqs =>
    match fetch reqs with
    | .ok none => (.pyEmptyList, reqs + 1)
    | .ok (some label) =>
        (.pyBool (pyLower (pyStrip label) == pyLower aqw_guild_name), reqs + 1)
    | .httpError s =>
        if s == 429 then checkAttempts fetch aqw_guild_name attemptsLeft (reqs + 1)
        else (.pyBool false, reqs + 1)
    | .otherError => (.pyBool false, reqs + 1)

/-- `AQWUtils.check_aqw_guild(name, aqw_guild_name)`: the per-name fetch
behaviour is abstracted into the `fetch` oracle, so `name` itself is not a
separate parameter.  Returns the Python return value and the number of
HTTP requests issued. -/
def check_aqw_guild (fetch : Nat → FetchResult) (aqw_guild_name : String) :
    PyRet × Nat :=
  checkAttempts fetch aqw_guild_name MAX_RETRIES 0

/-! ### Display rendering: `DiscordUtils.create_list_embeds` -/

def MEMBERS_PER_FIELD : Nat := 15

def MAX_FIELDS_PER_EMBED : Nat := 3

def members_per_embed : Nat := MEMBERS_PER_FIELD * MAX_FIELDS_PER_EMBED

/-- The chunking list comprehension
`[members[i:i+members_per_embed] for i in range(0, len(members), members_per_embed)]`;
the stepped `range` is modelled as `i = c * members_per_embed` for
`c < ceil(len / members_per_embed)`. -/
def chunksOf (members : List α) : List (List α) :=
  (List.range ((members.length + members_per_embed - 1) / members_per_embed)).map
    (fun c => (members.drop (c * members_per_embed)).take members_per_embed)

/-- One `embed.add_field` call: the field a column becomes.  The formatted
text lines are modelled structurally as (index label, member name) pairs,
where the label is the number interpolated into the source's
f-string. -/
structure EmbedField where
  name : String
  value : List (Nat × String)
deriving DecidableEq, Repr

structure Embed where
  title : String
  footer : String
  fields : List EmbedField
deriving DecidableEq, Repr

/-- The lines of column `i` of chunk `chunk_idx`: member `j` of the column
is labelled `(j+1)+(i*column_size)+(chunk_idx*members_per_embed)`. -/
def fieldLines (chunk_idx i column_size : Nat)
    (field_members : List (String × String)) : List (Nat × String) :=
  field_members.enum.map (fun jm =>
    ((jm.1 + 1) + i * column_size + chunk_idx * members_per_embed, jm.2.1))

/-- The inner `for i in range(MAX_FIELDS_PER_EMBED)` loop of
`create_list_embeds`: `column_size = len(chunk) // MAX_FIELDS_PER_EMBED + 1`,
column `i` is `chunk[start:end]` with `start = i*column_size`, and empty
columns are skipped (`if not field_members: continue`). -/
def buildFields (chunk_idx : Nat) (chunk : List (String × String)) :
    List EmbedField :=
  let column_size := chunk.length / MAX_FIELDS_PER_EMBED + 1
  (List.range MAX_FIELDS_PER_EMBED).filterMap (fun i =>
    let field_members := (chunk.drop (i * column_size)).take column_size
    if field_members.isEmpty then none
    else some { name := "Group " ++ toString (i + 1),
                value := fieldLines chunk_idx i column_size field_members })

/-- `DiscordUtils.create_list_embeds(guild_name, members)`.  Members are
(name, status) pairs as returned by `Database.get_members`.  The title's
emoji prefix is dropped; otherwise the embed structure is as built by the
source. -/
def create_list_embeds (guild_name : String)
    (members : List (String × String)) : List Embed :=
  let chunks := chunksOf members
  chunks.enum.map (fun ic =>
    { title := pyUpper guild_name ++ " MEMBER LIST",
      footer := "Page " ++ toString (ic.1 + 1) ++ " of " ++ toString chunks.length,
      fields := buildFields ic.1 ic.2 })

/-! ### Display synchronizer: `DiscordUtils.update_list`

The Discord channel is modelled as the list of message ids currently
present plus a fresh-id counter; the possible errors of
`fetch_message`/`edit`/`send`/`delete` are modelled by fault oracles:
`discord.NotFound` is derived from the channel state (the id is gone),
while rate limits (`HTTPException` with status 429) and other
`HTTPException`s are injected per loop position.  Each loop iteration
performs at most one faultable fetch-and-operate pair, covered by a
single fault slot. -/

inductive Fault where
  | rateLimited
  | httpOther
deriving DecidableEq, Repr

/-- Fault oracles for one `update_list` pass: `editFault idx` faults the
fetch/edit (or send) of page `idx` in the main loop, `recoverFault idx`
faults the recovery `channel.send` inside the `except discord.NotFound`
handler at page `idx`, and `deleteFault j` faults the `j`-th iteration of
the surplus-deletion loop. -/
structure SyncEnv where
  editFault : Nat → Option Fault
  recoverFault : Nat → Option Fault
  deleteFault : Nat → Option Fault

def SyncEnv.clean : SyncEnv :=
  { editFault := fun _ => none, recoverFault := fun _ => none,
    deleteFault := fun _ => none }

structure Channel where
  msgs : List Nat
  nextId : Nat
deriving DecidableEq, Repr

inductive MsgAct where
  | edited (id : Nat)
  | created (id : Nat)
  | deleted (id : Nat)
deriving DecidableEq, Repr

/-- Working state of one `update_list` pass: the channel, the
`new_message_ids` accumulator and the log of message operations actually
performed. -/
structure LoopState where
  chan : Channel
  newIds : List Nat
  actions : List MsgAct
deriving DecidableEq, Repr

/-- `msg = await channel.send(embed=embed); new_message_ids.append(msg.id)`:
creates a fresh message and records its id. -/
def sendNew (s : LoopState) : LoopState :=
  let fresh := s.chan.nextId
  { chan := { msgs := s.chan.msgs ++ [fresh], nextId := fresh + 1 },
    newIds := s.newIds ++ [fresh],
    actions := s.actions ++ [.created fresh] }

/-- One iteration of the `for idx, embed in enumerate(embeds)` loop of
`update_list`.  Returns the new state and whether an exception escaped the
loop (only possible when the recovery send inside the `except
discord.NotFound` handler itself fails: that exception is not caught by
the sibling `except` clauses and propagates to the outer handler).
A 429 on the edit/send runs `continue` — which in Python advances to the
next page — and any other `HTTPException` is logged; in both cases nothing
is appended for this page. -/
def editStep (env : SyncEnv) (existing : List Nat) (idx : Nat)
    (s : LoopState) : LoopState × Bool :=
  match existing[idx]? with
  | some mid =>
    if mid ∈ s.chan.msgs then
      match env.editFault idx with
      | none =>
          ({ s with newIds := s.newIds ++ [mid],
                    actions := s.actions ++ [.edited mid] }, false)
      | some _ => (s, false)
    else
      match env.recoverFault idx with
      | none => (sendNew s, false)
      | some _ => (s, true)
  | none =>
    match env.editFault idx with
    | none => (sendNew s, false)
    | some _ => (s, false)

/-- The main page loop of `update_list`, run from page `idx` for
`remaining` more pages (invoked with `idx = 0` and `remaining` = the
number of embeds). -/
def editLoop (env : SyncEnv) (existing : List Nat) :
    Nat → Nat → LoopState → LoopState × Bool
  | 0, _, s => (s, false)
  | remaining + 1, idx, s =>
    let r := editStep env existing idx s
    if r.2 then r else editLoop env existing remaining (idx + 1) r.1

/-- One iteration of the surplus-deletion loop: fetch then delete.  A
missing message raises `discord.NotFound` which is passed over; a 429 runs
`continue`, which skips this deletion; any other `HTTPException` is
logged.  `new_message_ids` is never touched here. -/
def deleteStep (env : SyncEnv) (j : Nat) (mid : Nat) (s : LoopState) :
    LoopState :=
  if mid ∈ s.chan.msgs then
    match env.deleteFault j with
    | none =>
        { s with chan := { msgs := s.chan.msgs.erase mid,
                           nextId := s.chan.nextId },
                 actions := s.actions ++ [.deleted mid] }
    | some _ => s
  else s

/-- The `for msg_id in existing_message_ids[len(embeds):]` loop. -/
def deleteLoop (env : SyncEnv) : Nat → List Nat → LoopState → LoopState
  | _, [], s => s
  | j, mid :: rest, s => deleteLoop env (j + 1) rest (deleteStep env j mid s)

/-- Result of one `update_list` pass: the channel afterwards, the stored
display-message-id list for the group (`messages` table), the operations
performed, and whether the pass ran to completion (`completed = false`
when an exception escaped to the outer handler, in which case
`save_message_ids` was never reached and the stored list is unchanged). -/
structure SyncResult where
  chan : Channel
  stored : List Nat
  actions : List MsgAct
  completed : Bool
deriving DecidableEq, Repr

/-- `DiscordUtils.update_list`: render the member list into embeds, edit or
create a message per page, delete surplus stored messages from the old
list's tail, then `Database.save_message_ids(server_id, new_message_ids)`
replaces the stored list. -/
def update_list (env : SyncEnv) (chan : Channel) (guild_name : String)
    (members : List (String × String)) (existing : List Nat) : SyncResult :=
  let embeds := create_list_embeds guild_name members
  let r1 := editLoop env existing embeds.length 0 ⟨chan, [], []⟩
  if r1.2 then
    { chan := r1.1.chan, stored := existing, actions := r1.1.actions,
      completed := false }
  else
    let s2 := deleteLoop env 0 (existing.drop embeds.length) r1.1
    { chan := s2.chan, stored := s2.newIds, actions := s2.actions,
      completed := true }

/-! ### Roster store and the reconciliation sweep: `live_guild_check` -/

/-- A row of the `members` table. -/
structure MemberRow where
  sid : String
  name : String
  normalized : String
  status : String
  lastChecked : Nat
deriving DecidableEq, Repr

/-- A row of the `servers` table (channel references omitted; they do not
affect the reconciliation logic). -/
structure ServerRow where
  sid : String
  guild_name : String
  autoremove : Bool
deriving DecidableEq, Repr

structure Store where
  servers : List ServerRow
  members : List MemberRow
deriving Repr

/-- `Database.remove_member`: `DELETE FROM members WHERE server_id = ? AND
normalized_name = ?` with the normalized name `name.lower()`. -/
def remove_member (ms : List MemberRow) (sid name : String) :
    List MemberRow :=
  ms.filter (fun r => !(r.sid == sid && r.normalized == pyLower name))

/-- `Database.update_last_checked`: `UPDATE members SET last_checked = now
WHERE server_id = ? AND normalized_name = ?`. -/
def update_last_checked (ms : List MemberRow) (sid name : String)
    (now : Nat) : List MemberRow :=
  ms.map (fun r =>
    if r.sid == sid && r.normalized == pyLower name
    then { r with lastChecked := now } else r)

/-- Ascending order on `last_checked`, the sweep's `ORDER BY last_checked
ASC`. -/
def lcLE (a b : MemberRow) : Prop := a.lastChecked ≤ b.lastChecked

instance : DecidableRel lcLE := fun a b => Nat.decLe a.lastChecked b.lastChecked

instance : IsTotal MemberRow lcLE := ⟨fun a b => Nat.le_total a.lastChecked b.lastChecked⟩

instance : IsTrans MemberRow lcLE := ⟨fun _ _ _ h h2 => Nat.le_trans h h2⟩

def CHECK_LIMIT : Nat := 15

/-- The sweep's member selection: `SELECT name FROM members WHERE
server_id = ? ORDER BY last_checked ASC LIMIT CHECK_LIMIT`, modelled as a
stable sort by `last_checked` followed by `take` (SQL leaves the order of
ties unspecified; the model fixes one admissible order). -/
def selectDue (ms : List MemberRow) (sid : String) : List MemberRow :=
  (List.insertionSort lcLE (ms.filter (fun r => r.sid == sid))).take CHECK_LIMIT

/-- The body of the sweep's per-member loop (lines 699-709): check the
guild, then either `Database.remove_member` (verification failed with
auto-remove on, plus an audit log entry) or
`Database.update_last_checked`.  `verify name gname` is the truthiness of
`AQWUtils.check_aqw_guild(name, gname)`.  The returned `Bool` records
whether the member was auto-removed. -/
def processMember (verify : String → String → Bool) (now : Nat)
    (gname : String) (autoremove : Bool) (ms : List MemberRow)
    (sid name : String) : List MemberRow × Bool :=
  let in_guild := verify name gname
  if !in_guild && autoremove then
    (remove_member ms sid name, true)
  else
    (update_last_checked ms sid name now, false)

/-- Folding the per-member loop over the selected names of one server. -/
def processNames (verify : String → String → Bool) (now : Nat)
    (gname : String) (autoremove : Bool) (sid : String) :
    List String → List MemberRow → List MemberRow
  | [], ms => ms
  | n :: rest, ms =>
      processNames verify now gname autoremove sid rest
        (processMember verify now gname autoremove ms sid n).1

/-- The sweep's outer loop over the servers returned by `SELECT server_id
FROM servers WHERE autoremove = 1`, threading the members table and the
`successful_checks` counter. -/
def sweepLoop (verify : String → String → Bool) (now : Nat) :
    List ServerRow → List MemberRow → Nat → List MemberRow × Nat
  | [], ms, checks => (ms, checks)
  | srv :: rest, ms, checks =>
      let due := (selectDue ms srv.sid).map (fun r => r.name)
      sweepLoop verify now rest
        (processNames verify now srv.guild_name srv.autoremove srv.sid due ms)
        (checks + due.length)

structure SweepResult where
  members : List MemberRow
  processed : List String
  triggered : List String
deriving Repr

/-- The `live_guild_check` task body: iterate the auto-remove-enabled
servers, verify each server's due batch, then — because the final
`update_list` call references the loop variable `server_id` after the
loop — trigger the display update only for the last iterated server (and
only when `successful_checks > 0`).  `processed` lists the servers the
sweep iterated; `triggered` lists the servers for which
`DiscordUtils.update_list` was invoked. -/
def live_guild_check (verify : String → String → Bool) (now : Nat)
    (st : Store) : SweepResult :=
  let dueServers := st.servers.filter (fun s => s.autoremove)
  let r := sweepLoop verify now dueServers st.members 0
  { members := r.1,
    processed := dueServers.map (fun s => s.sid),
    triggered :=
      if r.2 > 0 then
        match dueServers.getLast? with
        | some srv => [srv.sid]
        | none => []
      else [] }

/-! ### Auxiliary definitions used in the claim statements -/

/-- `SELECT FROM members WHERE server_id = ? AND normalized_name = ?` as a
first-match lookup. -/
def findRow (ms : List MemberRow) (sid nname : String) : Option MemberRow :=
  ms.find? (fun r => r.sid == sid && r.normalized == nname)

/-- Consecutive (index label, member name) lines starting at label
`base`: the shape of a correctly labelled row-major listing. -/
def labelFrom (base : Nat) : List (String × String) → List (Nat × String)
  | [] => []
  | m :: rest => (base, m.1) :: labelFrom (base + 1) rest

/-! ### Concrete instances referenced by the claim theorems -/

/-- Two configured groups with auto-remove enabled, one member each. -/
def twoGroupStore : Store :=
  { servers := [{ sid := "A", guild_name := "g", autoremove := true },
                { sid := "B", guild_name := "g", autoremove := true }],
    members := [{ sid := "A", name := "alice", normalized := "alice",
                  status := "", lastChecked := 0 },
                { sid := "B", name := "bob", normalized := "bob",
                  status := "", lastChecked := 0 }] }

/-- A pass in which every main-loop page operation is rate limited. -/
def rateLimitedEnv : SyncEnv :=
  { editFault := fun _ => some Fault.rateLimited,
    recoverFault := fun _ => none, deleteFault := fun _ => none }

/-- A pass in which every main-loop page operation fails with a non-429
HTTP error. -/
def httpErrorEnv : SyncEnv :=
  { editFault := fun _ => some Fault.httpOther,
    recoverFault := fun _ => none, deleteFault := fun _ => none }

/-- A page-capacity roster of 45 distinct members. -/
def fortyFiveMembers : List (String × String) :=
  (List.range 45).map (fun i => (toString i, ""))

/-- A members table with three rows of one group and one of another. -/
def sampleMembers : List MemberRow :=
  [{ sid := "A", name := "x", normalized := "x", status := "", lastChecked := 5 },
   { sid := "A", name := "y", normalized := "y", status := "", lastChecked := 2 },
   { sid := "B", name := "z", normalized := "z", status := "", lastChecked := 1 },
   { sid := "A", name := "w", normalized := "w", status := "", lastChecked := 9 }]

/-- The embed rendered for a single-member roster. -/
def oneMemberEmbed : Embed :=
  { title := "G MEMBER LIST", footer := "Page 1 of 1",
    fields := [{ name := "Group 1", value := [(1, "a")] }] }

/-! ## Claim theorems -/

theorem isEmpty_false_of_length_pos {α : Type} {l : List α}
    (h : 0 < l.length) : l.isEmpty = false := by
  cases l with
  | nil => simp at h
  | cons a as => rfl

theorem fieldLines_length (c i cs : Nat) (col : List (String × String)) :
    (fieldLines c i cs col).length = col.length := by
  simp [fieldLines, List.enum_length]

/-- The labels in one column are consecutive, starting at the column's
base label. -/
theorem enumFrom_map_label (k : Nat) :
    ∀ (col : List (String × String)) (i : Nat),
      (List.enumFrom i col).map (fun jm => (jm.1 + k, jm.2.1)) =
        labelFrom (i + k) col := by
  intro col
  induction col with
  | nil => intro i; rfl
  | cons m rest ih =>
    intro i
    rw [List.enumFrom_cons, List.map_cons, ih (i + 1), labelFrom,
      show i + 1 + k = i + k + 1 from by omega]

theorem fieldLines_eq_labelFrom (c i cs : Nat)
    (col : List (String × String)) :
    fieldLines c i cs col =
      labelFrom (i * cs + (c * members_per_embed + 1)) col := by
  unfold fieldLines
  rw [List.enum_eq_enumFrom]
  rw [List.map_congr_left
    (show ∀ jm ∈ List.enumFrom 0 col,
        ((jm.1 + 1) + i * cs + c * members_per_embed, jm.2.1) =
          (jm.1 + (i * cs + (c * members_per_embed + 1)), jm.2.1) from
      fun jm _ => by simp only [Prod.mk.injEq]; exact ⟨by omega, trivial⟩)]
  rw [enumFrom_map_label (i * cs + (c * members_per_embed + 1)) col 0,
    Nat.zero_add]

theorem labelFrom_append (d : List (String × String)) :
    ∀ (a : List (String × String)) (b : Nat),
      labelFrom b (a ++ d) = labelFrom b a ++ labelFrom (b + a.length) d := by
  intro a
  induction a with
  | nil => intro b; simp [labelFrom]
  | cons m rest ih =>
    intro b
    rw [List.cons_append, labelFrom, labelFrom, ih (b + 1), List.cons_append,
      List.length_cons, show b + 1 + rest.length = b + (rest.length + 1) from
        by omega]

/-- C1: the claim states that after a sweep, `update_list` is triggered
for every group actually processed.  In the code the call after the loop
references the loop variable, so only the last iterated group is
synchronized: on a store with two processed groups, the sweep processes
groups A and B but triggers the display update for B alone. -/
theorem c1_sweep_triggers_only_last_group :
    (live_guild_check (fun _ _ => true) 100 twoGroupStore).processed = ["A", "B"] ∧
    (live_guild_check (fun _ _ => true) 100 twoGroupStore).triggered = ["B"] :=
  ⟨rfl, rfl⟩

/-- C2: the claim states that a rate-limited edit of page `i` is retried
so that page `i` still ends up edited and recorded.  In the code the
`continue` after the rate-limit sleep advances to the next page: on a
one-page pass whose only edit is rate limited, the pass completes having
performed no message operation at all and having recorded no id for the
page. -/
theorem c2_rate_limited_page_is_skipped_not_retried :
    (update_list rateLimitedEnv ⟨[5], 6⟩ "g" [("alice", "")] [5]).actions = [] ∧
    (update_list rateLimitedEnv ⟨[5], 6⟩ "g" [("alice", "")] [5]).stored = [] ∧
    (update_list rateLimitedEnv ⟨[5], 6⟩ "g" [("alice", "")] [5]).completed = true :=
  ⟨rfl, rfl, rfl⟩

/-- C6 counterexample: `check_aqw_guild` does not always return a boolean:
when the single permitted attempt is rate limited the loop is exhausted
and the function falls off its body returning `None`, and when the parsed
page has no guild element it returns the empty list (`[] and x`
evaluates to `[]`). -/
theorem c6_counterexample_not_always_boolean :
    ((check_aqw_guild (fun _ => FetchResult.httpError 429) "guild").1).isBool = false ∧
    ((check_aqw_guild (fun _ => FetchResult.ok none) "guild").1).isBool = false :=
  ⟨rfl, rfl⟩

/-- C6 (amended): `check_aqw_guild` returns a truthy value exactly when
the fetch succeeds and the guild label, stripped and lowercased, equals
the lowercased expected name; every error path (missing guild element,
HTTP error, other exception, exhausted rate-limit retries) returns a falsy
value (`False`, `None`, or the empty list), classified as non-member. -/
theorem c6_truthy_iff_label_match (fetch : Nat → FetchResult)
    (expected : String) :
    (check_aqw_guild fetch expected).1.truthy = true ↔
      ∃ label, fetch 0 = FetchResult.ok (some label) ∧
        pyLower (pyStrip label) = pyLower expected := by
  show (checkAttempts fetch expected MAX_RETRIES 0).1.truthy = true ↔ _
  rw [show MAX_RETRIES = 0 + 1 from rfl]
  cases hf : fetch 0 with
  | ok g =>
    cases g with
    | none => simp [checkAttempts, hf, PyRet.truthy]
    | some label => simp [checkAttempts, hf, PyRet.truthy, beq_iff_eq]
  | httpError s =>
    by_cases h429 : s = 429
    · subst h429
      simp [checkAttempts, hf, PyRet.truthy]
    · simp [checkAttempts, hf, PyRet.truthy, h429]
  | otherError => simp [checkAttempts, hf, PyRet.truthy]

/-- C6 witness: a successful fetch whose label matches after stripping and
case folding verifies as truthy. -/
theorem c6_witness :
    (check_aqw_guild (fun _ => FetchResult.ok (some "  My Guild "))
      "my guild").1.truthy = true :=
  (c6_truthy_iff_label_match _ _).mpr ⟨"  My Guild ", rfl, by decide⟩

/-- C9: with `MAX_RETRIES = 1`, a call whose first attempt is rate
limited issues exactly one HTTP request and returns `None`, a falsy
(non-member) result. -/
theorem c9_retry_cap_single_request (fetch : Nat → FetchResult)
    (expected : String) (h : fetch 0 = FetchResult.httpError 429) :
    check_aqw_guild fetch expected = (PyRet.pyNone, 1) ∧
    (check_aqw_guild fetch expected).1.truthy = false := by
  have : check_aqw_guild fetch expected = (PyRet.pyNone, 1) := by
    show checkAttempts fetch expected MAX_RETRIES 0 = _
    rw [show MAX_RETRIES = 0 + 1 from rfl]
    simp [checkAttempts, h]
  exact ⟨this, by rw [this]; rfl⟩

/-- C9 witness: the retry-cap theorem at the constant-429 oracle. -/
theorem c9_witness :
    (fun _ : Nat => FetchResult.httpError 429) 0 = FetchResult.httpError 429 ∧
    check_aqw_guild (fun _ => FetchResult.httpError 429) "g" = (PyRet.pyNone, 1) :=
  ⟨rfl, (c9_retry_cap_single_request _ "g" rfl).1⟩

/-- In an iteration whose fault slots are clear, the page loop body never
aborts and appends exactly one id (the edited message's id or a fresh
one). -/
theorem editStep_no_fault (env : SyncEnv) (existing : List Nat) (idx : Nat)
    (s : LoopState) (hE : env.editFault idx = none)
    (hR : env.recoverFault idx = none) :
    (editStep env existing idx s).2 = false ∧
    (editStep env existing idx s).1.newIds.length = s.newIds.length + 1 := by
  unfold editStep
  cases hx : existing[idx]? with
  | some mid =>
    by_cases hm : mid ∈ s.chan.msgs
    · simp [hm, hE]
    · simp [hm, hR, sendNew]
  | none => simp [hE, sendNew]

/-- With clear edit and recovery fault oracles, the page loop never aborts
and grows `new_message_ids` by exactly the number of pages. -/
theorem editLoop_no_fault (env : SyncEnv) (existing : List Nat)
    (hE : env.editFault = fun _ => none)
    (hR : env.recoverFault = fun _ => none) :
    ∀ (remaining idx : Nat) (s : LoopState),
      (editLoop env existing remaining idx s).2 = false ∧
      (editLoop env existing remaining idx s).1.newIds.length =
        s.newIds.length + remaining := by
  intro remaining
  induction remaining with
  | zero => exact fun idx s => ⟨rfl, rfl⟩
  | succ k ih =>
    intro idx s
    have hstep := editStep_no_fault env existing idx s
      (by rw [hE]) (by rw [hR])
    have hrec := ih (idx + 1) (editStep env existing idx s).1
    simp only [editLoop, hstep.1, if_false, Bool.false_eq_true]
    exact ⟨hrec.1, by rw [hrec.2, hstep.2]; omega⟩

/-- The deletion loop never touches `new_message_ids`. -/
theorem deleteStep_newIds (env : SyncEnv) (j mid : Nat) (s : LoopState) :
    (deleteStep env j mid s).newIds = s.newIds := by
  unfold deleteStep
  by_cases hm : mid ∈ s.chan.msgs
  · cases env.deleteFault j <;> simp [hm]
  · simp [hm]

theorem deleteLoop_newIds (env : SyncEnv) :
    ∀ (ts : List Nat) (j : Nat) (s : LoopState),
      (deleteLoop env j ts s).newIds = s.newIds := by
  intro ts
  induction ts with
  | nil => exact fun j s => rfl
  | cons mid rest ih =>
    intro j s
    rw [deleteLoop, ih, deleteStep_newIds]

/-- C3 counterexample: a pass in which the single page's edit fails with a
non-429 HTTP error completes, but persists a message-id list shorter than
the number of rendered pages (the failed page's id is never appended). -/
theorem c3_counterexample_failed_edit_shrinks_stored :
    (update_list httpErrorEnv ⟨[5], 6⟩ "g" [("alice", "")] [5]).completed = true ∧
    (update_list httpErrorEnv ⟨[5], 6⟩ "g" [("alice", "")] [5]).stored.length ≠
      (create_list_embeds "g" [("alice", "")]).length :=
  ⟨rfl, by decide⟩

/-- C3 (amended): after a synchronization pass in which no page edit,
create or recovery send fails with a rate-limit or other HTTP error
(deletion faults are irrelevant), the persisted display-message-id list
has length equal to the number of rendered pages. -/
theorem c3_stored_length_eq_pages_when_no_page_faults (env : SyncEnv)
    (chan : Channel) (gn : String) (members : List (String × String))
    (existing : List Nat) (hE : env.editFault = fun _ => none)
    (hR : env.recoverFault = fun _ => none) :
    (update_list env chan gn members existing).stored.length =
      (create_list_embeds gn members).length ∧
    (update_list env chan gn members existing).completed = true := by
  have h := editLoop_no_fault env existing hE hR
    (create_list_embeds gn members).length 0 ⟨chan, [], []⟩
  unfold update_list
  simp only [h.1, if_false, Bool.false_eq_true, deleteLoop_newIds]
  have h2 := h.2
  simp only [List.length_nil, Nat.zero_add] at h2
  exact ⟨h2, trivial⟩

/-- C3 witness: a clean two-member pass (one page, one stale stored id)
stores exactly one id per page. -/
theorem c3_witness :
    SyncEnv.clean.editFault = (fun _ => none) ∧
    SyncEnv.clean.recoverFault = (fun _ => none) ∧
    (update_list SyncEnv.clean ⟨[5], 6⟩ "g" [("alice", ""), ("bob", "")]
        [5, 9]).stored.length =
      (create_list_embeds "g" [("alice", ""), ("bob", "")]).length :=
  ⟨rfl, rfl,
    (c3_stored_length_eq_pages_when_no_page_faults SyncEnv.clean ⟨[5], 6⟩ "g"
      [("alice", ""), ("bob", "")] [5, 9] rfl rfl).1⟩

/-- The deletion loop never adds messages to the channel. -/
theorem deleteStep_msgs_mono (env : SyncEnv) (j mid : Nat) (s : LoopState)
    (m : Nat) (h : m ∈ (deleteStep env j mid s).chan.msgs) :
    m ∈ s.chan.msgs := by
  unfold deleteStep at h
  by_cases hm : mid ∈ s.chan.msgs
  · cases hf : env.deleteFault j with
    | none =>
      simp only [if_pos hm, hf] at h
      exact List.mem_of_mem_erase h
    | some f => simp only [if_pos hm, hf] at h; exact h
  · simp only [if_neg hm] at h; exact h

theorem deleteLoop_msgs_mono (env : SyncEnv) :
    ∀ (ts : List Nat) (j : Nat) (s : LoopState) (m : Nat),
      m ∈ (deleteLoop env j ts s).chan.msgs → m ∈ s.chan.msgs := by
  intro ts
  induction ts with
  | nil => exact fun j s m h => h
  | cons mid rest ih =>
    intro j s m h
    exact deleteStep_msgs_mono env j mid s m
      (ih (j + 1) (deleteStep env j mid s) m (by rw [deleteLoop] at h; exact h))

theorem deleteStep_nodup (env : SyncEnv) (j mid : Nat) (s : LoopState)
    (h : s.chan.msgs.Nodup) : (deleteStep env j mid s).chan.msgs.Nodup := by
  unfold deleteStep
  by_cases hm : mid ∈ s.chan.msgs
  · cases hf : env.deleteFault j with
    | none => simp only [if_pos hm, hf]; exact List.Nodup.erase mid h
    | some f => simp only [if_pos hm, hf]; exact h
  · simp only [if_neg hm]; exact h

/-- A message distinct from the deletion target survives one deletion
iteration. -/
theorem deleteStep_mem_preserved (env : SyncEnv) (j mid : Nat)
    (s : LoopState) (m : Nat) (hm : m ∈ s.chan.msgs) (hne : m ≠ mid) :
    m ∈ (deleteStep env j mid s).chan.msgs := by
  unfold deleteStep
  by_cases hin : mid ∈ s.chan.msgs
  · cases hf : env.deleteFault j with
    | none =>
      simp only [if_pos hin, hf]
      exact (List.mem_erase_of_ne hne).mpr hm
    | some f => simp only [if_pos hin, hf]; exact hm
  · simp only [if_neg hin]; exact hm

/-- A message none of whose ids is a deletion target survives the whole
deletion loop (whatever the fault oracle does). -/
theorem deleteLoop_mem_preserved (env : SyncEnv) :
    ∀ (ts : List Nat) (j : Nat) (s : LoopState) (m : Nat),
      m ∈ s.chan.msgs → m ∉ ts → m ∈ (deleteLoop env j ts s).chan.msgs := by
  intro ts
  induction ts with
  | nil => exact fun j s m hm _ => hm
  | cons mid rest ih =>
    intro j s m hm hnt
    rw [deleteLoop]
    exact ih (j + 1) _ m
      (deleteStep_mem_preserved env j mid s m hm
        (fun h => hnt (h ▸ List.mem_cons_self mid rest)))
      (fun h => hnt (List.mem_cons_of_mem mid h))

/-- With a clear deletion fault oracle and a duplicate-free channel, every
deletion target is gone after the loop (a target that was already absent
counts as success). -/
theorem deleteLoop_deletes (env : SyncEnv)
    (hD : env.deleteFault = fun _ => none) :
    ∀ (ts : List Nat) (j : Nat) (s : LoopState), s.chan.msgs.Nodup →
      ∀ t ∈ ts, t ∉ (deleteLoop env j ts s).chan.msgs := by
  intro ts
  induction ts with
  | nil => exact fun j s _ t ht => absurd ht (List.not_mem_nil t)
  | cons mid rest ih =>
    intro j s hnd t ht
    rw [deleteLoop]
    rcases List.mem_cons.mp ht with h | h
    · subst h
      intro hmem
      have hstep : t ∉ (deleteStep env j t s).chan.msgs := by
        unfold deleteStep
        by_cases hin : t ∈ s.chan.msgs
        · simp only [if_pos hin, hD]
          intro hcontra
          exact absurd (hnd.mem_erase_iff.mp hcontra).1 (by simp)
        · simp only [if_neg hin]; exact hin
      exact hstep (deleteLoop_msgs_mono env rest (j + 1) _ t hmem)
    · exact ih (j + 1) _ (deleteStep_nodup env j mid s hnd) t h

/-- C10: synchronizing a group whose member list is empty renders zero
pages, deletes every previously stored display message (an
already-deleted message raises `NotFound`, which is passed over as
success), and persists an empty message-id list. -/
theorem c10_empty_roster_sync (env : SyncEnv) (chan : Channel) (gn : String)
    (existing : List Nat) (hD : env.deleteFault = fun _ => none)
    (hnd : chan.msgs.Nodup) :
    create_list_embeds gn [] = [] ∧
    (update_list env chan gn [] existing).completed = true ∧
    (update_list env chan gn [] existing).stored = [] ∧
    ∀ id ∈ existing, id ∉ (update_list env chan gn [] existing).chan.msgs := by
  refine ⟨rfl, rfl, ?_, ?_⟩
  · show (deleteLoop env 0 (existing.drop 0) ⟨chan, [], []⟩).newIds = []
    rw [deleteLoop_newIds]
  · intro id hid
    show id ∉ (deleteLoop env 0 (existing.drop 0) ⟨chan, [], []⟩).chan.msgs
    exact deleteLoop_deletes env hD (existing.drop 0) 0 ⟨chan, [], []⟩ hnd id
      (by rw [List.drop_zero]; exact hid)

/-- C10 witness: a channel holding two stale display messages is emptied
and the stored list becomes empty. -/
theorem c10_witness :
    SyncEnv.clean.deleteFault = (fun _ => none) ∧
    ([3, 7] : List Nat).Nodup ∧
    (update_list SyncEnv.clean ⟨[3, 7], 10⟩ "g" [] [3, 7, 8]).stored = [] ∧
    3 ∉ (update_list SyncEnv.clean ⟨[3, 7], 10⟩ "g" [] [3, 7, 8]).chan.msgs :=
  ⟨rfl, by decide,
    (c10_empty_roster_sync SyncEnv.clean ⟨[3, 7], 10⟩ "g" [3, 7, 8] rfl
      (by decide)).2.2.1,
    (c10_empty_roster_sync SyncEnv.clean ⟨[3, 7], 10⟩ "g" [3, 7, 8] rfl
      (by decide)).2.2.2 3 (by decide)⟩

/-- When every page has a stored message that is still present and no
fault occurs, the page loop is pure edits: the channel is untouched,
`new_message_ids` collects exactly the stored ids in order, and each page
logs one edit of its own message. -/
theorem editLoop_all_present (existing : List Nat) :
    ∀ (remaining idx : Nat) (s : LoopState),
      idx + remaining = existing.length →
      (∀ m ∈ existing, m ∈ s.chan.msgs) →
      editLoop SyncEnv.clean existing remaining idx s =
        ({ chan := s.chan,
           newIds := s.newIds ++ existing.drop idx,
           actions := s.actions ++ (existing.drop idx).map MsgAct.edited },
         false) := by
  intro remaining
  induction remaining with
  | zero =>
    intro idx s hn _
    have hdrop : existing.drop idx = [] :=
      List.drop_eq_nil_of_le (by omega)
    simp [editLoop, hdrop]
  | succ k ih =>
    intro idx s hn hpres
    have hidx : idx < existing.length := by omega
    have hget : existing[idx]? = some existing[idx] :=
      List.getElem?_eq_getElem hidx
    have hmem : existing[idx] ∈ s.chan.msgs :=
      hpres _ (List.getElem_mem hidx)
    have hstep : editStep SyncEnv.clean existing idx s =
        ({ s with newIds := s.newIds ++ [existing[idx]],
                  actions := s.actions ++ [MsgAct.edited existing[idx]] },
         false) := by
      unfold editStep
      rw [hget]
      simp [hmem, SyncEnv.clean]
    rw [editLoop]
    simp only [hstep, if_false, Bool.false_eq_true]
    rw [ih (idx + 1)
        ⟨s.chan, s.newIds ++ [existing[idx]],
         s.actions ++ [MsgAct.edited existing[idx]]⟩ (by omega) hpres,
      List.drop_eq_getElem_cons hidx]
    simp
    rw [List.drop_eq_getElem_cons
      (show idx < (List.map MsgAct.edited existing).length from by
        simpa using hidx), List.getElem_map]

/-- Invariant of the page loop under the clean environment: every
collected id is a live message, and is either one of the first `n` stored
ids or a fresh id at least `bound`; the fresh-id counter never
decreases. -/
theorem editLoop_clean_props (existing : List Nat) (n bound : Nat) :
    ∀ (remaining idx : Nat) (s : LoopState),
      idx + remaining = n →
      (∀ m ∈ s.newIds, m ∈ s.chan.msgs) →
      (∀ m ∈ s.newIds, m ∈ existing.take n ∨ bound ≤ m) →
      bound ≤ s.chan.nextId →
      (∀ m ∈ (editLoop SyncEnv.clean existing remaining idx s).1.newIds,
          m ∈ (editLoop SyncEnv.clean existing remaining idx s).1.chan.msgs) ∧
      (∀ m ∈ (editLoop SyncEnv.clean existing remaining idx s).1.newIds,
          m ∈ existing.take n ∨ bound ≤ m) ∧
      bound ≤ (editLoop SyncEnv.clean existing remaining idx s).1.chan.nextId := by
  intro remaining
  induction remaining with
  | zero => exact fun idx s _ h1 h2 h3 => ⟨h1, h2, h3⟩
  | succ k ih =>
    intro idx s hn h1 h2 h3
    have hidx : idx < n := by omega
    have hnof := editStep_no_fault SyncEnv.clean existing idx s rfl rfl
    rw [editLoop]
    simp only [hnof.1, if_false, Bool.false_eq_true]
    refine ih (idx + 1) (editStep SyncEnv.clean existing idx s).1 (by omega)
      ?_ ?_ ?_
    case _ =>
      -- every collected id is a live message after the step
      intro m hm
      unfold editStep
      unfold editStep at hm
      cases hget : existing[idx]? with
      | some mid =>
        rw [hget] at hm
        by_cases hmem : mid ∈ s.chan.msgs
        · simp only [hmem, if_true, ite_true, SyncEnv.clean] at hm ⊢
          rcases List.mem_append.mp hm with h | h
          · exact h1 m h
          · exact (List.mem_singleton.mp h) ▸ hmem
        · simp only [hmem, if_false, ite_false, SyncEnv.clean, sendNew] at hm ⊢
          rcases List.mem_append.mp hm with h | h
          · exact List.mem_append.mpr (Or.inl (h1 m h))
          · exact List.mem_append.mpr (Or.inr h)
      | none =>
        rw [hget] at hm
        simp only [SyncEnv.clean, sendNew] at hm ⊢
        rcases List.mem_append.mp hm with h | h
        · exact List.mem_append.mpr (Or.inl (h1 m h))
        · exact List.mem_append.mpr (Or.inr h)
    case _ =>
      -- every collected id is an early stored id or fresh
      intro m hm
      unfold editStep at hm
      cases hget : existing[idx]? with
      | some mid =>
        rw [hget] at hm
        by_cases hmem : mid ∈ s.chan.msgs
        · simp only [hmem, if_true, ite_true, SyncEnv.clean] at hm
          rcases List.mem_append.mp hm with h | h
          · exact h2 m h
          · left
            have hlen : idx < existing.length :=
              (List.getElem?_eq_some.mp hget).1
            rw [List.mem_singleton.mp h]
            exact List.mem_take_iff_getElem.mpr
              ⟨idx, by omega, ((List.getElem?_eq_some.mp hget).2)⟩
        · simp only [hmem, if_false, ite_false, SyncEnv.clean, sendNew] at hm
          rcases List.mem_append.mp hm with h | h
          · exact h2 m h
          · right
            rw [List.mem_singleton.mp h]
            exact h3
      | none =>
        rw [hget] at hm
        simp only [SyncEnv.clean, sendNew] at hm
        rcases List.mem_append.mp hm with h | h
        · exact h2 m h
        · right
          rw [List.mem_singleton.mp h]
          exact h3
    case _ =>
      -- the fresh-id counter never decreases
      unfold editStep
      cases hget : existing[idx]? with
      | some mid =>
        by_cases hmem : mid ∈ s.chan.msgs
        · simp only [hmem, if_true, ite_true, SyncEnv.clean]
          exact h3
        · simp only [hmem, if_false, ite_false, SyncEnv.clean, sendNew]
          omega
      | none =>
        simp only [SyncEnv.clean, sendNew]
        omega

/-- A clean synchronization pass completes, stores one id per rendered
page, and every stored id is a live message afterwards (the deletion of
surplus old ids cannot touch them: old ids reused by edits are among the
first `n` stored ids, and freshly created ids exceed every old id). -/
theorem update_list_clean_pass (chan0 : Channel) (gn : String)
    (members : List (String × String)) (stored0 : List Nat)
    (hnd : stored0.Nodup) (hlt : ∀ m ∈ stored0, m < chan0.nextId) :
    (update_list SyncEnv.clean chan0 gn members stored0).completed = true ∧
    (update_list SyncEnv.clean chan0 gn members stored0).stored.length =
      (create_list_embeds gn members).length ∧
    ∀ m ∈ (update_list SyncEnv.clean chan0 gn members stored0).stored,
      m ∈ (update_list SyncEnv.clean chan0 gn members stored0).chan.msgs := by
  have h0 := editLoop_no_fault SyncEnv.clean stored0 rfl rfl
    (create_list_embeds gn members).length 0 ⟨chan0, [], []⟩
  have hprops := editLoop_clean_props stored0
    (create_list_embeds gn members).length chan0.nextId
    (create_list_embeds gn members).length 0 ⟨chan0, [], []⟩ (Nat.zero_add _)
    (by intro m hm; cases hm) (by intro m hm; cases hm) (Nat.le_refl _)
  unfold update_list
  simp only [h0.1, if_false, Bool.false_eq_true, deleteLoop_newIds]
  refine ⟨trivial, by simpa using h0.2, ?_⟩
  intro m hm
  apply deleteLoop_mem_preserved
  · exact hprops.1 m hm
  · intro hdrop
    rcases hprops.2.1 m hm with htake | hfresh
    · exact (List.disjoint_take_drop hnd (Nat.le_refl _)) htake hdrop
    · exact absurd (hlt m (List.drop_subset _ _ hdrop)) (by omega)

/-- C5: synchronization is idempotent: starting from a duplicate-free
stored list of previously issued ids (all below the channel's fresh-id
counter), a second fault-free pass over the unchanged member list performs
exactly one edit per stored message — no creations and no deletions — and
stores the same id list as the first pass. -/
theorem c5_update_list_idempotent (chan0 : Channel) (gn : String)
    (members : List (String × String)) (stored0 : List Nat)
    (hnd : stored0.Nodup)
    (hlt : stored0.all (fun m => decide (m < chan0.nextId)) = true) :
    (update_list SyncEnv.clean
        (update_list SyncEnv.clean chan0 gn members stored0).chan gn members
        (update_list SyncEnv.clean chan0 gn members stored0).stored).stored =
      (update_list SyncEnv.clean chan0 gn members stored0).stored ∧
    (update_list SyncEnv.clean
        (update_list SyncEnv.clean chan0 gn members stored0).chan gn members
        (update_list SyncEnv.clean chan0 gn members stored0).stored).actions =
      (update_list SyncEnv.clean chan0 gn members stored0).stored.map
        MsgAct.edited ∧
    (update_list SyncEnv.clean
        (update_list SyncEnv.clean chan0 gn members stored0).chan gn members
        (update_list SyncEnv.clean chan0 gn members stored0).stored).completed =
      true := by
  have hlt2 : ∀ m ∈ stored0, m < chan0.nextId := fun m hm =>
    of_decide_eq_true (List.all_eq_true.mp hlt m hm)
  have hpass := update_list_clean_pass chan0 gn members stored0 hnd hlt2
  set r1 := update_list SyncEnv.clean chan0 gn members stored0 with hr1
  have hloop := editLoop_all_present r1.stored
    (create_list_embeds gn members).length 0 ⟨r1.chan, [], []⟩
    (by rw [hpass.2.1]; exact Nat.zero_add _) hpass.2.2
  have hdrop : r1.stored.drop (create_list_embeds gn members).length = [] :=
    List.drop_eq_nil_of_le (by rw [hpass.2.1])
  unfold update_list
  simp only [hloop, if_false, Bool.false_eq_true, hdrop, deleteLoop,
    List.drop_zero, List.nil_append]
  exact ⟨trivial, trivial, trivial⟩

/-- C5 witness: a first pass from an empty channel creates the single
page's message; the repeated pass stores the same list and only edits. -/
theorem c5_witness :
    ([] : List Nat).Nodup ∧
    (([] : List Nat).all (fun m => decide (m < (0 : Nat))) = true) ∧
    (update_list SyncEnv.clean
        (update_list SyncEnv.clean ⟨[], 0⟩ "g" [("alice", "")] []).chan "g"
        [("alice", "")]
        (update_list SyncEnv.clean ⟨[], 0⟩ "g" [("alice", "")] []).stored).stored =
      (update_list SyncEnv.clean ⟨[], 0⟩ "g" [("alice", "")] []).stored :=
  ⟨by decide, by decide,
    (c5_update_list_idempotent ⟨[], 0⟩ "g" [("alice", "")] [] (by decide)
      (by decide)).1⟩

/-- Structure of one rendered page: the concatenation of its columns
lists the page's members in order, labelled by consecutive global
indices starting at `chunk_idx * members_per_embed + 1`, and the column
sizes are `min column_size (k - i * column_size)` for the non-empty
columns, with `column_size = k / MAX_FIELDS_PER_EMBED + 1`. -/
theorem buildFields_spec (c : Nat) (chunk : List (String × String)) :
    ((buildFields c chunk).map EmbedField.value).flatten =
      labelFrom (c * members_per_embed + 1) chunk ∧
    (buildFields c chunk).map (fun f => f.value.length) =
      ([min (chunk.length / MAX_FIELDS_PER_EMBED + 1) chunk.length,
        min (chunk.length / MAX_FIELDS_PER_EMBED + 1)
          (chunk.length - (chunk.length / MAX_FIELDS_PER_EMBED + 1)),
        min (chunk.length / MAX_FIELDS_PER_EMBED + 1)
          (chunk.length -
            2 * (chunk.length / MAX_FIELDS_PER_EMBED + 1))]).filter
        (fun x => decide (0 < x)) := by
  simp only [buildFields]
  generalize hG : chunk.length / MAX_FIELDS_PER_EMBED + 1 = cs
  rw [show List.range MAX_FIELDS_PER_EMBED = [0, 1, 2] from by decide]
  have hG3 : chunk.length / 3 + 1 = cs := hG
  have hcs1 : 0 < cs := by omega
  have hk3 : chunk.length < 3 * cs := by omega
  simp only [List.filterMap_cons, List.filterMap_nil, Nat.zero_mul,
    Nat.one_mul, List.drop_zero]
  by_cases h0 : chunk.length = 0
  · have hnil : chunk = [] := List.length_eq_zero.mp h0
    subst hnil
    simp [labelFrom]
  · by_cases hA : chunk.length ≤ cs
    · -- one non-empty column holding the whole page
      have hc0 : List.take cs chunk = chunk := List.take_of_length_le hA
      have hne : chunk.isEmpty = false :=
        isEmpty_false_of_length_pos (by omega)
      have hd1 : List.drop cs chunk = [] := List.drop_eq_nil_of_le hA
      have hd2 : List.drop (2 * cs) chunk = [] :=
        List.drop_eq_nil_of_le (by omega)
      simp only [hc0, hd1, hd2, List.take_nil, List.isEmpty_nil, hne,
        if_true, if_false, ite_true, ite_false, Bool.false_eq_true]
      constructor
      · simp only [List.map_cons, List.map_nil, List.flatten_cons,
          List.flatten_nil, List.append_nil]
        rw [fieldLines_eq_labelFrom, Nat.zero_mul, Nat.zero_add]
      · simp only [List.map_cons, List.map_nil, fieldLines_length]
        have e0 : min cs chunk.length = chunk.length := by omega
        have e1 : min cs (chunk.length - cs) = 0 := by omega
        have e2 : min cs (chunk.length - 2 * cs) = 0 := by omega
        have hp : decide (0 < chunk.length) = true :=
          decide_eq_true (by omega)
        rw [e0, e1, e2]
        simp [List.filter, hp]
    · by_cases hB : chunk.length ≤ 2 * cs
      · -- two non-empty columns
        have hlt : (List.take cs chunk).length = cs := by
          rw [List.length_take]; omega
        have hne0 : (List.take cs chunk).isEmpty = false :=
          isEmpty_false_of_length_pos (by rw [hlt]; omega)
        have hd1 : List.take cs (List.drop cs chunk) = List.drop cs chunk :=
          List.take_of_length_le (by rw [List.length_drop]; omega)
        have hne1 : (List.drop cs chunk).isEmpty = false :=
          isEmpty_false_of_length_pos (by rw [List.length_drop]; omega)
        have hd2 : List.drop (2 * cs) chunk = [] :=
          List.drop_eq_nil_of_le (by omega)
        simp only [hd1, hd2, List.take_nil, List.isEmpty_nil, hne0, hne1,
          if_true, if_false, ite_true, ite_false, Bool.false_eq_true]
        constructor
        · simp only [List.map_cons, List.map_nil, List.flatten_cons,
            List.flatten_nil, List.append_nil]
          rw [fieldLines_eq_labelFrom, fieldLines_eq_labelFrom]
          conv_rhs => rw [← List.take_append_drop cs chunk]
          rw [labelFrom_append, hlt, Nat.zero_mul, Nat.zero_add, Nat.one_mul,
            Nat.add_comm cs (c * members_per_embed + 1)]
        · simp only [List.map_cons, List.map_nil, fieldLines_length, hlt,
            List.length_drop]
          have e0 : min cs chunk.length = cs := by omega
          have e1 : min cs (chunk.length - cs) = chunk.length - cs := by
            omega
          have e2 : min cs (chunk.length - 2 * cs) = 0 := by omega
          have hp0 : decide (0 < cs) = true := decide_eq_true (by omega)
          have hp1 : decide (0 < chunk.length - cs) = true :=
            decide_eq_true (by omega)
          rw [e0, e1, e2]
          simp [List.filter, hp0, hp1,
            decide_eq_true (show cs < chunk.length from by omega)]
      · -- three non-empty columns
        have hlt : (List.take cs chunk).length = cs := by
          rw [List.length_take]; omega
        have hne0 : (List.take cs chunk).isEmpty = false :=
          isEmpty_false_of_length_pos (by rw [hlt]; omega)
        have hlt1 : (List.take cs (List.drop cs chunk)).length = cs := by
          rw [List.length_take, List.length_drop]; omega
        have hne1 : (List.take cs (List.drop cs chunk)).isEmpty = false :=
          isEmpty_false_of_length_pos (by rw [hlt1]; omega)
        have hd2 : List.take cs (List.drop (2 * cs) chunk) =
            List.drop (2 * cs) chunk :=
          List.take_of_length_le (by rw [List.length_drop]; omega)
        have hne2 : (List.drop (2 * cs) chunk).isEmpty = false :=
          isEmpty_false_of_length_pos (by rw [List.length_drop]; omega)
        simp only [hd2, hne0, hne1, hne2, if_true, if_false, ite_true,
          ite_false, Bool.false_eq_true]
        constructor
        · simp only [List.map_cons, List.map_nil, List.flatten_cons,
            List.flatten_nil, List.append_nil]
          rw [fieldLines_eq_labelFrom, fieldLines_eq_labelFrom,
            fieldLines_eq_labelFrom]
          conv_rhs => rw [← List.take_append_drop cs chunk]
          rw [labelFrom_append, hlt]
          conv_rhs => rw [← List.take_append_drop cs (List.drop cs chunk)]
          rw [labelFrom_append, hlt1, List.drop_drop,
            show cs + cs = 2 * cs from by omega,
            Nat.zero_mul, Nat.zero_add, Nat.one_mul,
            show (2 : Nat) * cs + (c * members_per_embed + 1) =
              c * members_per_embed + 1 + cs + cs from by ring,
            Nat.add_comm cs (c * members_per_embed + 1)]
        · simp only [List.map_cons, List.map_nil, fieldLines_length, hlt,
            hlt1, List.length_drop]
          have e0 : min cs chunk.length = cs := by omega
          have e1 : min cs (chunk.length - cs) = cs := by omega
          have e2 : min cs (chunk.length - 2 * cs) =
              chunk.length - 2 * cs := by omega
          have hp0 : decide (0 < cs) = true := decide_eq_true (by omega)
          have hp2 : decide (0 < chunk.length - 2 * cs) = true :=
            decide_eq_true (by omega)
          rw [e0, e1, e2]
          simp [List.filter, hp0, hp2,
            decide_eq_true (show 2 * cs < chunk.length from by omega)]

/-- C4 counterexample: a full page of 45 members is rendered as columns
of 16, 16 and 13 members (`column_size = 45 // 3 + 1 = 16`), not three
columns of 15 as the claim's `ceil(k / columnsPerPage)` would give. -/
theorem c4_counterexample_full_page_columns :
    ((create_list_embeds "g" fortyFiveMembers).map
      (fun e => e.fields.map (fun f => f.value.length))) = [[16, 16, 13]] ∧
    ([[16, 16, 13]] : List (List Nat)) ≠ [[15, 15, 15]] :=
  ⟨rfl, by decide⟩

/-- C4 (amended): every rendered page splits its members into up to
`MAX_FIELDS_PER_EMBED` columns of size `column_size = k // 3 + 1` (floor
division, so the trailing column is shorter — or empty and omitted — and
k = 45 gives 16, 16, 13): the non-empty column sizes are
`min column_size (k - i * column_size)`, and concatenating the columns
lists the page's members in row-major order, labelled by the running
global one-based index. -/
theorem c4_columns_floor_div_row_major (gn : String)
    (members : List (String × String)) (c : Nat) (e : Embed)
    (he : (create_list_embeds gn members)[c]? = some e) :
    ∃ chunk, (chunksOf members)[c]? = some chunk ∧
      (e.fields.map EmbedField.value).flatten =
        labelFrom (c * members_per_embed + 1) chunk ∧
      e.fields.map (fun f => f.value.length) =
        ([min (chunk.length / MAX_FIELDS_PER_EMBED + 1) chunk.length,
          min (chunk.length / MAX_FIELDS_PER_EMBED + 1)
            (chunk.length - (chunk.length / MAX_FIELDS_PER_EMBED + 1)),
          min (chunk.length / MAX_FIELDS_PER_EMBED + 1)
            (chunk.length -
              2 * (chunk.length / MAX_FIELDS_PER_EMBED + 1))]).filter
          (fun x => decide (0 < x)) := by
  unfold create_list_embeds at he
  rw [List.getElem?_map, List.getElem?_enum] at he
  cases hc : (chunksOf members)[c]? with
  | none => rw [hc] at he; simp at he
  | some chunk =>
    rw [hc] at he
    simp only [Option.map_some'] at he
    have hfields : e.fields = buildFields c chunk := by
      rw [← Option.some.inj he]
    refine ⟨chunk, rfl, ?_, ?_⟩
    · rw [hfields]; exact (buildFields_spec c chunk).1
    · rw [hfields]; exact (buildFields_spec c chunk).2

/-- C4 witness: the amended column theorem applied to a one-member
roster: the single column holds the single member labelled 1. -/
theorem c4_witness :
    (create_list_embeds "g" [("a", "")])[0]? = some oneMemberEmbed ∧
    (oneMemberEmbed.fields.map EmbedField.value).flatten =
      labelFrom 1 [("a", "")] := by
  refine ⟨rfl, ?_⟩
  obtain ⟨chunk, hc, hj, _⟩ :=
    c4_columns_floor_div_row_major "g" [("a", "")] 0 oneMemberEmbed rfl
  have hchunk : chunk = [("a", "")] := by
    have h : (chunksOf [("a", "")] :
        List (List (String × String)))[0]? = some [("a", "")] := rfl
    rw [h] at hc
    exact (Option.some.inj hc).symm
  rw [hchunk] at hj
  simpa using hj

/-- C7: the sweep's per-member step (the body of the `for name, in
c.fetchall()` loop) on a member whose verification fails: with the
group's auto-remove flag set, every trace of the member (its
`(server_id, normalized_name)` key) is deleted from the members table, so
it is absent from the store and from any roster rendered from it; with
the flag clear, the table keeps one row per original row (nothing is
deleted) and the member's row reappears with `last_checked` set to the
sweep time. -/
theorem c7_removal_policy (verify : String → String → Bool) (now : Nat)
    (gname : String) (autoremove : Bool) (ms : List MemberRow)
    (sid name : String) (hfail : verify name gname = false) :
    (autoremove = true →
      ∀ r ∈ (processMember verify now gname autoremove ms sid name).1,
        ¬(r.sid = sid ∧ r.normalized = pyLower name)) ∧
    (autoremove = false →
      ∀ r ∈ ms, r.sid = sid → r.normalized = pyLower name →
        { r with lastChecked := now } ∈
          (processMember verify now gname autoremove ms sid name).1) ∧
    (autoremove = false →
      (processMember verify now gname autoremove ms sid name).1.length =
        ms.length) := by
  cases autoremove with
  | true =>
    have hres : (processMember verify now gname true ms sid name).1 =
        remove_member ms sid name := by simp [processMember, hfail]
    refine ⟨fun _ r hr => ?_, fun h => Bool.noConfusion h,
            fun h => Bool.noConfusion h⟩
    rw [hres, remove_member] at hr
    have hpred := (List.mem_filter.mp hr).2
    rintro ⟨h1, h2⟩
    simp [h1, h2] at hpred
  | false =>
    have hres : (processMember verify now gname false ms sid name).1 =
        update_last_checked ms sid name now := by simp [processMember, hfail]
    refine ⟨fun h => Bool.noConfusion h, fun _ r hr h1 h2 => ?_, fun _ => ?_⟩
    · rw [hres, update_last_checked]
      have heq : (if r.sid == sid && r.normalized == pyLower name
            then { r with lastChecked := now } else r) =
          { r with lastChecked := now } := by simp [h1, h2]
      exact heq ▸ List.mem_map_of_mem _ hr
    · rw [hres, update_last_checked, List.length_map]

/-- C7 witness: with auto-remove off, a failed member stays and its
timestamp is advanced to the sweep time. -/
theorem c7_witness :
    (fun _ _ : String => false) "Bob" "g" = false ∧
    ({ sid := "A", name := "Bob", normalized := "bob", status := "",
       lastChecked := 9 } : MemberRow) ∈
      (processMember (fun _ _ => false) 9 "g" false
        [{ sid := "A", name := "Bob", normalized := "bob", status := "",
           lastChecked := 0 }] "A" "Bob").1 :=
  ⟨rfl,
    (c7_removal_policy (fun _ _ => false) 9 "g" false _ "A" "Bob" rfl).2.1 rfl
      _ (List.mem_singleton.mpr rfl) rfl (by decide)⟩

/-- C8: the sweep's member selection for a group returns exactly
`min CHECK_LIMIT dueCount` members, in ascending `last_checked` order
(the processing order), and they are the smallest: together with the
dropped remainder they are a permutation of the group's members, and
every selected timestamp is at most every unselected one. -/
theorem c8_selection_min_batch_smallest (ms : List MemberRow) (sid : String) :
    (selectDue ms sid).length =
      min CHECK_LIMIT (ms.filter (fun r => r.sid == sid)).length ∧
    List.Sorted lcLE (selectDue ms sid) ∧
    (selectDue ms sid ++
        (List.insertionSort lcLE (ms.filter (fun r => r.sid == sid))).drop
          CHECK_LIMIT).Perm (ms.filter (fun r => r.sid == sid)) ∧
    ∀ x ∈ selectDue ms sid,
      ∀ y ∈ (List.insertionSort lcLE (ms.filter (fun r => r.sid == sid))).drop
          CHECK_LIMIT, x.lastChecked ≤ y.lastChecked := by
  have hperm := List.perm_insertionSort lcLE (ms.filter (fun r => r.sid == sid))
  have hsort := List.sorted_insertionSort lcLE (ms.filter (fun r => r.sid == sid))
  have hsplit := List.take_append_drop CHECK_LIMIT
      (List.insertionSort lcLE (ms.filter (fun r => r.sid == sid)))
  refine ⟨?_, ?_, ?_, ?_⟩
  · rw [selectDue, List.length_take, hperm.length_eq]
  · rw [selectDue]
    exact List.Pairwise.sublist (List.take_sublist _ _) hsort
  · rw [selectDue, hsplit]
    exact hperm
  · intro x hx y hy
    rw [selectDue] at hx
    have hp : List.Pairwise lcLE
        ((List.insertionSort lcLE
            (ms.filter (fun r => r.sid == sid))).take CHECK_LIMIT ++
          (List.insertionSort lcLE
            (ms.filter (fun r => r.sid == sid))).drop CHECK_LIMIT) := by
      rw [hsplit]; exact hsort
    exact (List.pairwise_append.mp hp).2.2 x hx y hy

/-- C8 witness: the selection size law evaluated on a sample table. -/
theorem c8_witness :
    (selectDue sampleMembers "A").length =
      min CHECK_LIMIT ((sampleMembers.filter (fun r => r.sid == "A")).length) :=
  (c8_selection_min_batch_smallest sampleMembers "A").1

end Metatron
